import Mathlib

/-!
Verification of the load-generation and metrics-aggregation engine
(reporter, exporter, monitor, clients) against its specification.

The Python source is shallowly embedded: Python floats are modelled as
rationals, lists as Lean lists, dictionaries with a fixed shape as
structures, and optional fields as Option. Python sorting (timsort) is
modelled by insertionSort, which like timsort is a stable comparison
sort; none of the verified properties depend on the tie-breaking order.
-/

namespace Bench

/-- One metric record as produced by a client and stored by the monitor:
the fields read by the reporter and the exporter. The field
response_size is Option because the exporter checks both key presence
and a None value before using it. -/
structure Metric where
  timestamp : ℚ
  service_name : String
  client_id : String
  request_duration : ℚ
  success : Bool
  response_size : Option ℚ
deriving DecidableEq

/-- Python min over a list, as the fold used by the builtin; callers in
the source guard against the empty list, for which we return 0. -/
def pymin : List ℚ → ℚ
  | [] => 0
  | x :: xs => xs.foldl min x

/-- Python max over a list; callers guard non-emptiness, empty gives 0. -/
def pymax : List ℚ → ℚ
  | [] => 0
  | x :: xs => xs.foldl max x

/-- statistics.mean: sum divided by length (rational division; callers
guard the empty list). -/
def mean (xs : List ℚ) : ℚ := xs.sum / xs.length

/-- The square of statistics.stdev: the sample variance, dividing the
sum of squared deviations from the mean by n - 1. The statistics module
computes this sum exactly over fractions, so the rational embedding is
faithful; the reported stdev is the square root of this value, and
since the square root is injective on nonnegative values, comparisons
of standard deviations are settled by comparing these squares. -/
def stdev_sq (xs : List ℚ) : ℚ :=
  ((xs.map (fun x => (x - mean xs) ^ 2)).sum) / ((xs.length : ℚ) - 1)

/-- statistics.median: middle element of the sorted list, or the mean of
the two middle elements (callers guard the empty list). -/
def median (xs : List ℚ) : ℚ :=
  let s := List.insertionSort (· ≤ ·) xs
  let n := s.length
  if n % 2 = 1 then s.getD (n / 2) 0
  else if n = 0 then 0
  else (s.getD (n / 2 - 1) 0 + s.getD (n / 2) 0) / 2

end Bench

namespace BenchmarkReporter

open Bench

/-- Body of BenchmarkReporter._percentile after the index is computed:
lower = int(index) (= the natural floor, the index being nonnegative),
upper = lower + 1; if upper runs past the end return sorted_data[-1]
(the last element), else interpolate linearly between the two
neighbouring entries. -/
def interpAt (sorted_data : List ℚ) (index : ℚ) : ℚ :=
  let lower := ⌊index⌋₊
  let upper := lower + 1
  if sorted_data.length ≤ upper then sorted_data.getD (sorted_data.length - 1) 0
  else
    let weight := index - (lower : ℚ)
    sorted_data.getD lower 0 * (1 - weight) + sorted_data.getD upper 0 * weight

/-- BenchmarkReporter._percentile: 0 on the empty list, otherwise linear
interpolation at index (n - 1) * percentile / 100. -/
def percentile (sorted_data : List ℚ) (p : ℕ) : ℚ :=
  if sorted_data.isEmpty then 0
  else interpAt sorted_data (((sorted_data.length : ℚ) - 1) * p / 100)

/-- Throughput dictionary returned by _calculate_throughput; the
duration_seconds key is absent when the metrics list is empty. -/
structure Throughput where
  requests_per_second : ℚ
  duration_seconds : Option ℚ
deriving DecidableEq

/-- BenchmarkReporter._calculate_throughput: span is max - min of the
timestamps of all metrics (success and failure); requests per second is
count over span when the span is positive, else 0. -/
def calculate_throughput (metrics : List Metric) : Throughput :=
  if metrics.isEmpty then ⟨0, none⟩
  else
    let timestamps := metrics.map (·.timestamp)
    let duration := pymax timestamps - pymin timestamps
    ⟨if 0 < duration then (metrics.length : ℚ) / duration else 0, some duration⟩

/-- The percentile dictionary computed by _analyze_service_metrics when
at least one successful duration exists. -/
structure Percentiles where
  p50 : ℚ
  p90 : ℚ
  p95 : ℚ
  p99 : ℚ
deriving DecidableEq

/-- The timing sub-dictionary of a service analysis; stdev_sq_duration
is the square of the reported stdev_duration (see stdev_sq). -/
structure Timing where
  avg_duration : ℚ
  median_duration : ℚ
  min_duration : ℚ
  max_duration : ℚ
  stdev_sq_duration : ℚ
deriving DecidableEq

/-- Timing block over the successful durations, with the guards of the
source: each statistic is 0 on an empty list and the stdev needs at
least two samples. -/
def timingOf (durations : List ℚ) : Timing where
  avg_duration := if durations.isEmpty then 0 else mean durations
  median_duration := if durations.isEmpty then 0 else median durations
  min_duration := if durations.isEmpty then 0 else pymin durations
  max_duration := if durations.isEmpty then 0 else pymax durations
  stdev_sq_duration := if 1 < durations.length then stdev_sq durations else 0

/-- Result of _analyze_service_metrics (the per-client breakdown, which
no claim concerns, is omitted). The percentiles dictionary is empty
(none) when there is no successful duration. -/
structure Analysis where
  total_requests : ℕ
  successful : ℕ
  failed : ℕ
  success_rate : ℚ
  timing : Timing
  percentiles : Option Percentiles
  throughput : Throughput
deriving DecidableEq

/-- BenchmarkReporter._analyze_service_metrics. -/
def analyze_service_metrics (metrics : List Metric) : Analysis :=
  let succ := metrics.filter (·.success)
  let durations := succ.map (·.request_duration)
  { total_requests := metrics.length
    successful := succ.length
    failed := (metrics.filter (fun m => !m.success)).length
    success_rate := if metrics.isEmpty then 0
      else (succ.length : ℚ) / (metrics.length : ℚ) * 100
    timing := timingOf durations
    percentiles :=
      if durations.isEmpty then none
      else
        let sd := List.insertionSort (· ≤ ·) durations
        some ⟨percentile sd 50, percentile sd 90, percentile sd 95, percentile sd 99⟩
    throughput := calculate_throughput metrics }

/-- The summary block of generate_report. -/
structure Summary where
  total_requests : ℕ
  successful_requests : ℕ
  failed_requests : ℕ
  success_rate : ℚ
  avg_duration : ℚ
  median_duration : ℚ
  min_duration : ℚ
  max_duration : ℚ
  stdev_sq_duration : ℚ
deriving DecidableEq

/-- Keys of a Python dict in first-insertion order: the order in which
the reporter and the exporter group metrics by service name. -/
def firstSeen (l : List String) : List String :=
  l.foldl (fun acc s => if acc.contains s then acc else acc ++ [s]) []

/-- A generated report: global summary plus one analysis per service in
first-seen order. -/
structure Report where
  benchmark_id : String
  summary : Summary
  services : List (String × Analysis)
deriving DecidableEq

/-- BenchmarkReporter.generate_report: none (an empty dictionary) for an
empty metrics list, otherwise the global summary over all metrics and a
per-service analysis for each distinct service name. -/
def generate_report (benchmark_id : String) (metrics : List Metric) : Option Report :=
  if metrics.isEmpty then none
  else
    let all_durations := (metrics.filter (·.success)).map (·.request_duration)
    some
      { benchmark_id := benchmark_id
        summary :=
          { total_requests := metrics.length
            successful_requests := (metrics.filter (·.success)).length
            failed_requests := (metrics.filter (fun m => !m.success)).length
            success_rate :=
              ((metrics.filter (·.success)).length : ℚ) / (metrics.length : ℚ) * 100
            avg_duration := if all_durations.isEmpty then 0 else mean all_durations
            median_duration := if all_durations.isEmpty then 0 else median all_durations
            min_duration := if all_durations.isEmpty then 0 else pymin all_durations
            max_duration := if all_durations.isEmpty then 0 else pymax all_durations
            stdev_sq_duration :=
              if 1 < all_durations.length then stdev_sq all_durations else 0 }
        services := (firstSeen (metrics.map (·.service_name))).map
          (fun s => (s, analyze_service_metrics
            (metrics.filter (fun m => m.service_name == s)))) }

end BenchmarkReporter

namespace SpecSide

open Bench

/-- The percentile formula exactly as the specification words it:
result = sorted[floor(index)] + (index - floor(index)) *
(sorted[ceil(index)] - sorted[floor(index)]) with
index = (n - 1) * p / 100; 0 for the empty list. -/
def percentileSpec (sorted_data : List ℚ) (p : ℕ) : ℚ :=
  if sorted_data.isEmpty then 0
  else
    let index : ℚ := ((sorted_data.length : ℚ) - 1) * p / 100
    let lo := sorted_data.getD ⌊index⌋₊ 0
    let hi := sorted_data.getD ⌈index⌉₊ 0
    lo + (index - (⌊index⌋₊ : ℚ)) * (hi - lo)

/-- The population variance the specification asks for (divide by n when
n is at least 2, else 0): the square of the population stddev. -/
def popVarSpec (xs : List ℚ) : ℚ :=
  if 2 ≤ xs.length then ((xs.map (fun x => (x - mean xs) ^ 2)).sum) / (xs.length : ℚ)
  else 0

/-- Sample variance in closed form, (n * sum of squares - square of sum)
divided by n * (n - 1): the amended stddev formula for claim C1. -/
def sampleVarAlt (xs : List ℚ) : ℚ :=
  ((xs.length : ℚ) * (xs.map (fun x => x ^ 2)).sum - xs.sum ^ 2) /
    ((xs.length : ℚ) * ((xs.length : ℚ) - 1))

/-- Throughput exactly as the specification words it: n divided by
(max over outcomes of start + duration) minus (min start), all outcomes
counted, and 0 when that span is 0 or the list is empty. -/
def throughputSpec (metrics : List Metric) : ℚ :=
  if metrics.isEmpty then 0
  else
    let span := pymax (metrics.map (fun m => m.timestamp + m.request_duration)) -
      pymin (metrics.map (·.timestamp))
    if span = 0 then 0 else (metrics.length : ℚ) / span

/-- Amended throughput for claim C3: n over the span of the start
timestamps alone, computed here from the timestamps sorted ascending
(first to last), 0 when that span is 0. -/
def throughputAmended (metrics : List Metric) : ℚ :=
  if metrics.isEmpty then 0
  else
    let ts := List.insertionSort (· ≤ ·) (metrics.map (·.timestamp))
    let span := ts.getD (ts.length - 1) 0 - ts.getD 0 0
    if span = 0 then 0 else (metrics.length : ℚ) / span

/-- The histogram bound ladder exactly as the specification lists it,
with 2.5 in sixth position. -/
def specLadder : List ℚ := [1/1000, 1/100, 1/10, 1/2, 1, 5/2, 5, 10]

/-- Bucket count as the specification words it: number of
successful-latency observations at most the bound. -/
def bucketCountSuccSpec (metrics : List Metric) (b : ℚ) : ℕ :=
  ((metrics.filter (·.success)).map (·.request_duration)).countP (fun d => decide (d ≤ b))

end SpecSide

namespace PrometheusExporter

open Bench

/-- The eight finite histogram bounds hard-coded in export_metrics:
[0.001, 0.01, 0.1, 0.5, 1.0, 2.0, 5.0, 10.0]. -/
def buckets : List ℚ := [1/1000, 1/100, 1/10, 1/2, 1, 2, 5, 10]

/-- The le label strings str(bucket) produced for the eight bounds. -/
def bucketLabels : List String :=
  ["0.001", "0.01", "0.1", "0.5", "1.0", "2.0", "5.0", "10.0"]

/-- sum(1 for d in durations if d <= bucket). -/
def bucketCount (durations : List ℚ) (b : ℚ) : ℕ :=
  durations.countP (fun d => decide (d ≤ b))

/-- sorted(stats[durations-key]) for one service: all request durations
of the service, successes and failures alike, sorted ascending. -/
def serviceDurations (metrics : List Metric) : List ℚ :=
  List.insertionSort (· ≤ ·) (metrics.map (·.request_duration))

/-- The label set attached to every sample of a service. -/
def labelsFor (service benchmark_id : String) : String :=
  "service=\"" ++ service ++ "\",benchmark_id=\"" ++ benchmark_id ++ "\""

/-- One sample line, name then labels in braces then the value. -/
def sampleLine (name labels value : String) : String :=
  name ++ "\x7b" ++ labels ++ "\x7d " ++ value

/-- The ten # HELP / # TYPE comment lines emitted at the start of every
export, in their fixed order. -/
def headerLines : List String :=
  ["# HELP benchmark_request_duration_seconds Request duration in seconds",
   "# TYPE benchmark_request_duration_seconds histogram",
   "# HELP benchmark_requests_total Total number of requests",
   "# TYPE benchmark_requests_total counter",
   "# HELP benchmark_requests_successful Successful requests",
   "# TYPE benchmark_requests_successful counter",
   "# HELP benchmark_requests_failed Failed requests",
   "# TYPE benchmark_requests_failed counter",
   "# HELP benchmark_response_size_bytes Response size in bytes",
   "# TYPE benchmark_response_size_bytes gauge"]

/-- The sample lines export_metrics emits for one service (counters,
histogram when durations exist, mean response size when sizes exist).
The loop in the source accumulates per-service aggregates in encounter
order, which equals aggregating the filtered sub-list passed here. -/
def serviceBlock (benchmark_id service : String) (metrics : List Metric) : List String :=
  let lbl := labelsFor service benchmark_id
  let durations := serviceDurations metrics
  let sizes := metrics.filterMap (·.response_size)
  [sampleLine "benchmark_requests_total" lbl (toString metrics.length),
   sampleLine "benchmark_requests_successful" lbl
     (toString (metrics.filter (·.success)).length),
   sampleLine "benchmark_requests_failed" lbl
     (toString (metrics.filter (fun m => !m.success)).length)]
  ++ (if durations.isEmpty then []
      else
        [sampleLine "benchmark_request_duration_seconds_sum" lbl (toString durations.sum),
         sampleLine "benchmark_request_duration_seconds_count" lbl
           (toString durations.length)]
        ++ (buckets.zip bucketLabels).map (fun bb =>
             sampleLine "benchmark_request_duration_seconds_bucket"
               (lbl ++ ",le=\"" ++ bb.2 ++ "\"") (toString (bucketCount durations bb.1)))
        ++ [sampleLine "benchmark_request_duration_seconds_bucket"
             (lbl ++ ",le=\"+Inf\"") (toString durations.length)])
  ++ (if sizes.isEmpty then []
      else [sampleLine "benchmark_response_size_bytes" lbl
             (toString (sizes.sum / (sizes.length : ℚ)))])

/-- All lines of export_metrics: the fixed headers, then one block per
service in first-seen order over the metrics of that service. -/
def export_lines (benchmark_id : String) (data : List Metric) : List String :=
  headerLines ++ (BenchmarkReporter.firstSeen (data.map (·.service_name))).flatMap
    (fun s => serviceBlock benchmark_id s (data.filter (fun m => m.service_name == s)))

/-- PrometheusExporter.export_metrics: the lines joined by newlines with
one trailing newline. -/
def export_metrics (benchmark_id : String) (data : List Metric) : String :=
  String.intercalate "\x0a" (export_lines benchmark_id data) ++ "\x0a"

end PrometheusExporter

namespace MetricStorage

/-- One metric dictionary as passed to the storage layer: the values
read by store_metrics_batch. Keys the source reads with a bare get are
Option (absent gives None); response_size defaults to 0. -/
structure MetricIn where
  timestamp : ℚ
  service_name : Option String
  client_id : Option String
  request_duration : Option ℚ
  success : Bool
  status_code : Option Int
  error_message : Option String
  response_size : ℚ
deriving DecidableEq

/-- One row of the metrics table: the columns written by the INSERT,
with the success flag stored as the integer 1 or 0. -/
structure MetricRow where
  benchmark_id : String
  timestamp : ℚ
  service_name : Option String
  client_id : Option String
  request_duration : Option ℚ
  success_int : Int
  status_code : Option Int
  error_message : Option String
  response_size : ℚ
deriving DecidableEq

/-- The row inserted for one metric under a benchmark id. -/
def toRow (benchmark_id : String) (m : MetricIn) : MetricRow :=
  ⟨benchmark_id, m.timestamp, m.service_name, m.client_id, m.request_duration,
   if m.success then 1 else 0, m.status_code, m.error_message, m.response_size⟩

/-- MetricStorage.store_metrics_batch: one transaction appending one row
per metric to the table (the database state is the row list). -/
def store_metrics_batch (db : List MetricRow) (benchmark_id : String)
    (metrics : List MetricIn) : List MetricRow :=
  db ++ metrics.map (toRow benchmark_id)

/-- The dictionary rebuilt from a selected row; bool(success column)
recovers the flag from the stored integer. -/
def rowToMetric (r : MetricRow) : MetricIn :=
  ⟨r.timestamp, r.service_name, r.client_id, r.request_duration,
   decide (r.success_int ≠ 0), r.status_code, r.error_message, r.response_size⟩

/-- MetricStorage.get_metrics: SELECT the rows WHERE benchmark_id
matches, ORDER BY timestamp, and rebuild one dictionary per row. -/
def get_metrics (db : List MetricRow) (benchmark_id : String) : List MetricIn :=
  ((db.filter (fun r => r.benchmark_id == benchmark_id)).insertionSort
    (fun a b => a.timestamp ≤ b.timestamp)).map rowToMetric

end MetricStorage

namespace Monitor

/-- A Python value as found in a metric dictionary. -/
inductive PyVal where
  | str (s : String)
  | num (q : ℚ)
  | boolean (b : Bool)
  | pynone
deriving DecidableEq

/-- A metric dictionary of unconstrained shape, for the frame-effect
claim about Monitor.record_metrics: keys are unique, lookup returns the
value at the first matching key, and inserting a fresh key appends it. -/
abbrev PyDict := List (String × PyVal)

/-- The in-place mutation record_metrics applies to one dictionary:
when the service_name key is absent, set it (a fresh key is appended in
insertion order); otherwise leave the dictionary alone. -/
def addServiceName (service_name : String) (d : PyDict) : PyDict :=
  if (d.lookup "service_name").isSome then d
  else d ++ [("service_name", PyVal.str service_name)]

/-- Monitor.record_metrics, restricted to its effect on the metric
dictionaries of the caller (the subsequent storage call is modelled by
MetricStorage.store_metrics_batch). -/
def record_metrics (service_name : String) (metrics : List PyDict) : List PyDict :=
  metrics.map (addServiceName service_name)

end Monitor

namespace BenchmarkClient

/-- What the attempted HTTP request did: returned a response with a
status code and a body, or raised an exception rendered as a message.
The requests library reports timeouts, connection failures and protocol
errors as exceptions, so all of those take the second form. -/
inductive HttpResult where
  | response (status_code : Int) (content : String)
  | exc (message : String)
deriving DecidableEq

/-- The RequestResult dataclass of the client. -/
structure RequestResult where
  timestamp : ℚ
  duration : ℚ
  success : Bool
  status_code : Option Int
  error : Option String
  response_size : ℕ
deriving DecidableEq

/-- BenchmarkClient.send_request, parameterised by the start time, the
elapsed wall time and what the dispatched request did: a response gives
success iff status is 200 with no error field set; an exception gives a
failure carrying str(e) and no status. No exception propagates. -/
def send_request (start_time duration : ℚ) (r : HttpResult) : RequestResult :=
  match r with
  | .response sc content =>
      ⟨start_time, duration, sc == 200, some sc, none, content.length⟩
  | .exc msg =>
      ⟨start_time, duration, false, none, some msg, 0⟩

end BenchmarkClient

namespace OpSelect

/-- The weighted-choice loop shared by VectorDBClient.execute_operation
and S3Client.execute_operation: walk the operation mix in order with a
running cumulative sum; at the first entry where rand is at most the
cumulative sum, run the entry through the if/elif chain over the known
operation names - an unknown name falls through and the loop continues
with the accumulated sum; if the loop ends, execute the default
operation. Returns the name of the operation executed. -/
def selectOp (known : List String) (dflt : String) :
    List (String × ℚ) → ℚ → ℚ → String
  | [], _, _ => dflt
  | (op, w) :: rest, rand, cumulative =>
    let c := cumulative + w
    if rand ≤ c then
      if known.contains op then op else selectOp known dflt rest rand c
    else selectOp known dflt rest rand c

/-- The selection the specification describes: the first entry of the
mix whose cumulative weight reaches rand, the default when none does. -/
def selectSpec (dflt : String) : List (String × ℚ) → ℚ → ℚ → String
  | [], _, _ => dflt
  | (op, w) :: rest, rand, cumulative =>
    let c := cumulative + w
    if rand ≤ c then op else selectSpec dflt rest rand c

end OpSelect

namespace VectorDBClient

/-- The operation names the if/elif chain of
VectorDBClient.execute_operation dispatches on. -/
def knownOps : List String := ["insert", "search", "update", "delete"]

/-- VectorDBClient.execute_operation given the value of random(): the
name of the operation executed; search is the fallback default. -/
def execute_operation (operation_mix : List (String × ℚ)) (rand : ℚ) : String :=
  OpSelect.selectOp knownOps "search" operation_mix rand 0

end VectorDBClient

namespace S3Client

/-- The operation names the if/elif chain of S3Client.execute_operation
dispatches on. -/
def knownOps : List String := ["put", "get", "list", "delete"]

/-- S3Client.execute_operation given the value of random(): the name of
the operation executed; put is the fallback default. -/
def execute_operation (operation_mix : List (String × ℚ)) (rand : ℚ) : String :=
  OpSelect.selectOp knownOps "put" operation_mix rand 0

end S3Client

section HelperLemmas

open Bench

/-- selectOp and selectSpec agree whenever every name in the mix is one
the dispatch chain knows. -/
theorem OpSelect.selectOp_eq_selectSpec (known : List String) (dflt : String)
    (mix : List (String × ℚ)) (rand cumulative : ℚ)
    (h : ∀ p ∈ mix, p.1 ∈ known) :
    OpSelect.selectOp known dflt mix rand cumulative =
      OpSelect.selectSpec dflt mix rand cumulative := by
  induction mix generalizing cumulative with
  | nil => rfl
  | cons hd tl ih =>
    have hhd : hd.1 ∈ known := h hd (List.mem_cons_self _ _)
    have htl : ∀ p ∈ tl, p.1 ∈ known := fun p hp => h p (List.mem_cons_of_mem _ hp)
    obtain ⟨op, w⟩ := hd
    simp only [OpSelect.selectOp, OpSelect.selectSpec]
    by_cases hc : rand ≤ cumulative + w
    · simp only [if_pos hc]
      rw [if_pos]
      simpa using hhd
    · simp only [if_neg hc]
      exact ih _ htl

/-- Looking up a key after appending a fresh binding: an existing
binding wins, a missing key finds the appended value exactly when the
keys match. -/
theorem lookup_append_single (d : List (String × Monitor.PyVal)) (k k0 : String)
    (v : Monitor.PyVal) :
    List.lookup k (d ++ [(k0, v)]) =
      if (List.lookup k d).isSome then List.lookup k d
      else if k == k0 then some v else none := by
  induction d with
  | nil => cases hk : k == k0 <;> simp [List.lookup, hk]
  | cons hd tl ih =>
    obtain ⟨k1, v1⟩ := hd
    cases hk : k == k1
    · simp only [List.cons_append, List.lookup, hk]
      exact ih
    · simp [List.lookup, hk]

end HelperLemmas

/-- C5 counterexample: a non-success HTTP status (500) produces an
Outcome with success = false but NO error description, so the claim
that every failure carries a non-empty error description, and that an
error description is present iff success is false, is false at this
input. -/
theorem send_request_error_counterexample :
    (BenchmarkClient.send_request 0 1 (.response 500 "")).success = false ∧
    (BenchmarkClient.send_request 0 1 (.response 500 "")).error = none := by
  constructor <;> rfl

/-- C5 (amended): send_request never propagates an exception (it is a
total function of what the request did); success is true exactly for an
HTTP 200 response; an error description is present exactly when the
request raised an exception, in which case the outcome is a failure
carrying the exception text; a non-success status yields success =
false with no error description. -/
theorem send_request_failure_semantics (start_time duration : ℚ)
    (r : BenchmarkClient.HttpResult) :
    ((BenchmarkClient.send_request start_time duration r).success = true ↔
      ∃ c, r = .response 200 c) ∧
    ((BenchmarkClient.send_request start_time duration r).error.isSome = true ↔
      ∃ m, r = .exc m) ∧
    (∀ m, r = .exc m →
      (BenchmarkClient.send_request start_time duration r).success = false ∧
      (BenchmarkClient.send_request start_time duration r).error = some m) := by
  cases r with
  | response sc content =>
    refine ⟨?_, by simp [BenchmarkClient.send_request], by simp⟩
    simp only [BenchmarkClient.send_request, beq_iff_eq]
    constructor
    · rintro rfl
      exact ⟨content, rfl⟩
    · rintro ⟨c, hc⟩
      cases hc
      rfl
  | exc msg =>
    refine ⟨by simp [BenchmarkClient.send_request], ?_, ?_⟩
    · simp [BenchmarkClient.send_request]
    · rintro m hm
      cases hm
      exact ⟨rfl, rfl⟩

/-- C5 witness: the theorem applied to a concrete raised exception. -/
theorem send_request_failure_semantics_witness :
    (BenchmarkClient.send_request 0 1 (.exc "connection refused")).success = false ∧
    (BenchmarkClient.send_request 0 1 (.exc "connection refused")).error =
      some "connection refused" :=
  (send_request_failure_semantics 0 1 (.exc "connection refused")).2.2
    "connection refused" rfl

/-- C7: for a configured operation mix (a mapping whose keys are
operations the client dispatches on) and any draw in the unit interval,
both execute_operation variants run the first operation whose running
cumulative weight reaches the draw, and fall back to the fixed default
operation (search for the vector client, put for the object-store
client) when the draw exceeds the total. -/
theorem operation_mix_cumulative_selection (mix : List (String × ℚ)) (rand : ℚ)
    (h0 : 0 ≤ rand) (h1 : rand < 1) :
    ((∀ p ∈ mix, p.1 ∈ VectorDBClient.knownOps) →
      VectorDBClient.execute_operation mix rand =
        OpSelect.selectSpec "search" mix rand 0) ∧
    ((∀ p ∈ mix, p.1 ∈ S3Client.knownOps) →
      S3Client.execute_operation mix rand = OpSelect.selectSpec "put" mix rand 0) :=
  ⟨fun h => OpSelect.selectOp_eq_selectSpec _ _ mix rand 0 h,
   fun h => OpSelect.selectOp_eq_selectSpec _ _ mix rand 0 h⟩

/-- C7 witness: the default vector-database mix at draw 1/2 selects the
search operation, the draw falling inside the second cumulative band. -/
theorem operation_mix_cumulative_selection_witness :
    VectorDBClient.execute_operation
      [("insert", 3/10), ("search", 1/2), ("update", 1/10), ("delete", 1/10)] (1/2) =
      OpSelect.selectSpec "search"
        [("insert", 3/10), ("search", 1/2), ("update", 1/10), ("delete", 1/10)] (1/2) 0 :=
  (operation_mix_cumulative_selection _ _ (by norm_num) (by norm_num)).1
    (by intro p hp; fin_cases hp <;> simp [VectorDBClient.knownOps])

/-- C9: record_metrics keeps one output dictionary per input dictionary
in order; a dictionary already holding a service_name key is returned
unchanged; one lacking it gains service_name bound to the given name;
and the binding of every other key is untouched in all cases. -/
theorem record_metrics_frame (service_name : String)
    (metrics : List Monitor.PyDict) :
    (Monitor.record_metrics service_name metrics).length = metrics.length ∧
    ∀ i, i < metrics.length →
      (((metrics.getD i []).lookup "service_name").isSome = true →
        (Monitor.record_metrics service_name metrics).getD i [] = metrics.getD i []) ∧
      ((metrics.getD i []).lookup "service_name" = none →
        ((Monitor.record_metrics service_name metrics).getD i []).lookup
          "service_name" = some (Monitor.PyVal.str service_name)) ∧
      (∀ k, k ≠ "service_name" →
        ((Monitor.record_metrics service_name metrics).getD i []).lookup k =
          (metrics.getD i []).lookup k) := by
  constructor
  · simp [Monitor.record_metrics]
  · intro i hi
    have hget : (Monitor.record_metrics service_name metrics).getD i [] =
        Monitor.addServiceName service_name (metrics.getD i []) := by
      simp only [Monitor.record_metrics]
      rw [List.getD_eq_getElem _ _ (by simpa using hi),
          List.getD_eq_getElem _ _ hi, List.getElem_map]
    set d := metrics.getD i [] with hd
    refine ⟨?_, ?_, ?_⟩
    · intro hsome
      rw [hget]
      simp [Monitor.addServiceName, hsome]
    · intro hnone
      rw [hget]
      unfold Monitor.addServiceName
      rw [if_neg (by simp [hnone]), lookup_append_single]
      simp [hnone]
    · intro k hk
      rw [hget]
      by_cases hsome : (d.lookup "service_name").isSome = true
      · simp [Monitor.addServiceName, hsome]
      · unfold Monitor.addServiceName
        rw [if_neg hsome, lookup_append_single]
        have hbeq : (k == "service_name") = false := by
          simpa using hk
        cases hv : d.lookup k with
        | none => simp [hv, hbeq]
        | some v => simp [hv]

/-- C9 witness: a two-dictionary batch, the first lacking service_name,
the second already carrying one. -/
theorem record_metrics_frame_witness :
    ((Monitor.record_metrics "svc" [[("success", Monitor.PyVal.boolean true)],
        [("service_name", Monitor.PyVal.str "other")]]).getD 0 []).lookup
      "service_name" = some (Monitor.PyVal.str "svc") ∧
    (Monitor.record_metrics "svc" [[("success", Monitor.PyVal.boolean true)],
        [("service_name", Monitor.PyVal.str "other")]]).getD 1 [] =
      [("service_name", Monitor.PyVal.str "other")] :=
  ⟨((record_metrics_frame "svc" _).2 0 (by norm_num)).2.1 (by rfl),
   ((record_metrics_frame "svc" _).2 1 (by norm_num)).1 (by rfl)⟩

/-- The interpolation body agrees with the floor/ceil formula of the
specification whenever the index lies within [0, n - 1]. -/
theorem interpAt_eq_spec_form (sd : List ℚ) (x : ℚ) (h0 : 0 ≤ x)
    (hub : x ≤ (sd.length : ℚ) - 1) :
    BenchmarkReporter.interpAt sd x =
      sd.getD ⌊x⌋₊ 0 + (x - (⌊x⌋₊ : ℚ)) * (sd.getD ⌈x⌉₊ 0 - sd.getD ⌊x⌋₊ 0) := by
  have hn : 1 ≤ sd.length := by
    by_contra hlen
    have h00 : sd.length = 0 := by omega
    rw [h00] at hub
    norm_num at hub
    linarith
  have hfl : (⌊x⌋₊ : ℚ) ≤ x := Nat.floor_le h0
  unfold BenchmarkReporter.interpAt
  by_cases hbr : sd.length ≤ ⌊x⌋₊ + 1
  · have hcast : (sd.length : ℚ) ≤ (⌊x⌋₊ : ℚ) + 1 := by exact_mod_cast hbr
    have heq : x = (sd.length : ℚ) - 1 := le_antisymm hub (by linarith)
    have hflr : (⌊x⌋₊ : ℚ) = x := le_antisymm hfl (by linarith)
    have hflN : ⌊x⌋₊ = sd.length - 1 := by
      have : (⌊x⌋₊ : ℚ) = ((sd.length - 1 : ℕ) : ℚ) := by
        rw [hflr, heq, Nat.cast_sub hn, Nat.cast_one]
      exact_mod_cast this
    have hc : ⌈x⌉₊ = ⌊x⌋₊ := by
      conv_lhs => rw [← hflr]
      exact Nat.ceil_natCast _
    have hxc : x = ((sd.length - 1 : ℕ) : ℚ) := by
      rw [heq, Nat.cast_sub hn, Nat.cast_one]
    rw [if_pos hbr, hc, hflN, ← hxc]
    ring
  · rw [if_neg hbr]
    rcases eq_or_lt_of_le hfl with hflEq | hflLt
    · have hc : ⌈x⌉₊ = ⌊x⌋₊ := by
        conv_lhs => rw [← hflEq]
        exact Nat.ceil_natCast _
      have hw : x - (⌊x⌋₊ : ℚ) = 0 := by
        rw [hflEq]
        ring
      rw [hc, hw]
      ring
    · have hc : ⌈x⌉₊ = ⌊x⌋₊ + 1 :=
        le_antisymm (Nat.ceil_le_floor_add_one x)
          (Nat.succ_le_of_lt (Nat.lt_ceil.mpr hflLt))
      rw [hc]
      ring

/-- C2: the percentile function of the reporter returns 0 on the empty
list, the single value for a one-element list whatever the percentile,
and on every list with percentile p between 0 and 100 it equals the
interpolation formula sorted[floor(i)] + (i - floor(i)) *
(sorted[ceil(i)] - sorted[floor(i)]) at i = (n - 1) * p / 100, exactly
as the specification words it. -/
theorem percentile_matches_spec_formula (p : ℕ) :
    (∀ x : ℚ, BenchmarkReporter.percentile [x] p = x) ∧
    BenchmarkReporter.percentile [] p = 0 ∧
    (p ≤ 100 → ∀ sorted_data : List ℚ,
      BenchmarkReporter.percentile sorted_data p =
        SpecSide.percentileSpec sorted_data p) := by
  refine ⟨?_, rfl, ?_⟩
  · intro x
    have hzero : ((([x] : List ℚ).length : ℚ) - 1) * p / 100 = 0 := by
      norm_num
    simp only [BenchmarkReporter.percentile, List.isEmpty_cons, if_false,
      Bool.false_eq_true, hzero]
    simp [BenchmarkReporter.interpAt]
  · intro hp sd
    by_cases hempty : sd.isEmpty
    · simp [BenchmarkReporter.percentile, SpecSide.percentileSpec, hempty]
    · have hn : 1 ≤ sd.length := by
        cases sd
        · simp at hempty
        · simp
      have h0 : 0 ≤ ((sd.length : ℚ) - 1) * p / 100 := by
        apply div_nonneg _ (by norm_num)
        apply mul_nonneg _ (Nat.cast_nonneg p)
        have : (1 : ℚ) ≤ (sd.length : ℚ) := by exact_mod_cast hn
        linarith
      have hub : ((sd.length : ℚ) - 1) * p / 100 ≤ (sd.length : ℚ) - 1 := by
        rw [div_le_iff₀ (by norm_num : (0:ℚ) < 100)]
        have hp100 : (p : ℚ) ≤ 100 := by exact_mod_cast hp
        have h1n : (0 : ℚ) ≤ (sd.length : ℚ) - 1 := by
          have : (1 : ℚ) ≤ (sd.length : ℚ) := by exact_mod_cast hn
          linarith
        nlinarith
      simp only [BenchmarkReporter.percentile, SpecSide.percentileSpec, hempty,
        Bool.false_eq_true, if_false]
      exact interpAt_eq_spec_form sd _ h0 hub

/-- C2 witness: the theorem applied at p = 90 on a concrete three
element list (and the one-element and empty cases at p = 90). -/
theorem percentile_matches_spec_formula_witness :
    BenchmarkReporter.percentile [(1 : ℚ), 2, 3] 90 =
      SpecSide.percentileSpec [(1 : ℚ), 2, 3] 90 ∧
    BenchmarkReporter.percentile [(7 : ℚ)] 90 = 7 ∧
    BenchmarkReporter.percentile ([] : List ℚ) 90 = 0 :=
  ⟨(percentile_matches_spec_formula 90).2.2 (by norm_num) [(1 : ℚ), 2, 3],
   (percentile_matches_spec_formula 90).1 7,
   (percentile_matches_spec_formula 90).2.1⟩

/-- Sum of squared deviations from any centre, expanded. -/
theorem sum_sq_dev (xs : List ℚ) (c : ℚ) :
    (xs.map (fun x => (x - c) ^ 2)).sum =
      (xs.map (fun x => x ^ 2)).sum - 2 * c * xs.sum + (xs.length : ℚ) * c ^ 2 := by
  induction xs with
  | nil => simp
  | cons hd tl ih =>
    simp only [List.map_cons, List.sum_cons, List.length_cons, ih]
    push_cast
    ring

/-- The square of statistics.stdev in closed form for two or more
samples. -/
theorem stdev_sq_eq_sampleVarAlt (xs : List ℚ) (h : 2 ≤ xs.length) :
    Bench.stdev_sq xs = SpecSide.sampleVarAlt xs := by
  have hn : (2 : ℚ) ≤ (xs.length : ℚ) := by exact_mod_cast h
  have hn0 : (xs.length : ℚ) ≠ 0 := by linarith
  have hn1 : (xs.length : ℚ) - 1 ≠ 0 := by
    intro hcon
    rw [sub_eq_zero] at hcon
    rw [hcon] at hn
    norm_num at hn
  unfold Bench.stdev_sq SpecSide.sampleVarAlt Bench.mean
  rw [sum_sq_dev]
  field_simp
  ring

/-- C1 (amended): the standard deviation the reporter emits, both in
the global summary and in the timing block of every per-service
analysis, is the SAMPLE standard deviation (divide by n - 1) of the
successful durations - its square equals (n * sum of squares - square
of sum) / (n * (n - 1)) - whenever at least two successful samples
exist, and 0 otherwise. -/
theorem stdev_uses_sample_formula (benchmark_id : String)
    (metrics : List Bench.Metric) (r : BenchmarkReporter.Report)
    (h : BenchmarkReporter.generate_report benchmark_id metrics = some r) :
    (r.summary.stdev_sq_duration =
      (if 2 ≤ ((metrics.filter (·.success)).map (·.request_duration)).length
       then SpecSide.sampleVarAlt ((metrics.filter (·.success)).map (·.request_duration))
       else 0)) ∧
    ∀ sa ∈ r.services,
      sa.2.timing.stdev_sq_duration =
        (if 2 ≤ (((metrics.filter (fun m => m.service_name == sa.1)).filter
              (·.success)).map (·.request_duration)).length
         then SpecSide.sampleVarAlt
           (((metrics.filter (fun m => m.service_name == sa.1)).filter
              (·.success)).map (·.request_duration))
         else 0) := by
  by_cases hempty : metrics.isEmpty
  · simp [BenchmarkReporter.generate_report, hempty] at h
  · simp only [BenchmarkReporter.generate_report, hempty, Bool.false_eq_true,
      if_false, Option.some_inj] at h
    subst h
    constructor
    · set ds := (metrics.filter (·.success)).map (·.request_duration) with hds
      show (if 1 < ds.length then Bench.stdev_sq ds else 0) = _
      by_cases hlen : 2 ≤ ds.length
      · rw [if_pos hlen, if_pos (by omega : 1 < ds.length)]
        exact stdev_sq_eq_sampleVarAlt ds hlen
      · rw [if_neg hlen, if_neg (by omega : ¬ 1 < ds.length)]
    · intro sa hsa
      simp only [List.mem_map] at hsa
      obtain ⟨s, _, hpair⟩ := hsa
      have h1 : sa.1 = s := by rw [← hpair]
      have h2 : sa.2 = BenchmarkReporter.analyze_service_metrics
          (metrics.filter (fun m => m.service_name == s)) := by rw [← hpair]
      rw [h2, h1]
      set ds := ((metrics.filter (fun m => m.service_name == s)).filter
          (·.success)).map (·.request_duration) with hds
      simp only [BenchmarkReporter.analyze_service_metrics,
        BenchmarkReporter.timingOf]
      by_cases hlen : 2 ≤ ds.length
      · rw [if_pos (by omega : 1 < ds.length), if_pos hlen]
        exact stdev_sq_eq_sampleVarAlt ds hlen
      · rw [if_neg (by omega : ¬ 1 < ds.length), if_neg hlen]

/-- Five successful metrics with durations 0.1 .. 0.5, the worked
example of the specification. -/
def fiveSampleMetrics : List Bench.Metric :=
  [⟨1000, "svc", "c1", 1/10, true, none⟩,
   ⟨1001, "svc", "c1", 2/10, true, none⟩,
   ⟨1002, "svc", "c1", 3/10, true, none⟩,
   ⟨1003, "svc", "c1", 4/10, true, none⟩,
   ⟨1004, "svc", "c1", 5/10, true, none⟩]

/-- C1 counterexample: on successful latencies [0.1, 0.2, 0.3, 0.4,
0.5] the squared stddev the report carries is 1/40 = 0.025 (sample
formula; stddev is sqrt(1/40), about 0.1581), while the population
formula of the specification gives 1/50 = 0.02 (stddev sqrt(1/50),
about 0.1414); the two differ, and since squaring is injective on
nonnegative values the reported stddev is NOT the population stddev
and is not approximately 0.1414. -/
theorem stdev_population_counterexample :
    ((BenchmarkReporter.generate_report "b" fiveSampleMetrics).map
      (fun r => r.summary.stdev_sq_duration)) = some (1/40) ∧
    SpecSide.popVarSpec
      ((fiveSampleMetrics.filter (·.success)).map (·.request_duration)) = 1/50 ∧
    (1/40 : ℚ) ≠ (1/50 : ℚ) := by
  refine ⟨?_, ?_, by norm_num⟩
  · simp only [fiveSampleMetrics, BenchmarkReporter.generate_report,
      Bench.stdev_sq, Bench.mean]
    norm_num [List.filter]
  · simp only [fiveSampleMetrics, SpecSide.popVarSpec, Bench.mean]
    norm_num [List.filter]

/-- C1 witness: the amended theorem applied to the same five metrics;
the sample-variance value 1/40 is reached. -/
theorem stdev_uses_sample_formula_witness :
    ∃ r, BenchmarkReporter.generate_report "b" fiveSampleMetrics = some r ∧
      r.summary.stdev_sq_duration =
        (if 2 ≤ ((fiveSampleMetrics.filter (·.success)).map
              (·.request_duration)).length
         then SpecSide.sampleVarAlt ((fiveSampleMetrics.filter (·.success)).map
           (·.request_duration))
         else 0) := by
  have h : ∃ r, BenchmarkReporter.generate_report "b" fiveSampleMetrics = some r := by
    simp [BenchmarkReporter.generate_report, fiveSampleMetrics]
  obtain ⟨r, hr⟩ := h
  exact ⟨r, hr, (stdev_uses_sample_formula "b" fiveSampleMetrics r hr).1⟩

section MinMaxLemmas

open Bench

/-- A min-fold is bounded by its initial value. -/
theorem foldl_min_le_init (l : List ℚ) (a : ℚ) : l.foldl min a ≤ a := by
  induction l generalizing a with
  | nil => exact le_refl a
  | cons hd tl ih =>
    exact le_trans (ih (min a hd)) (min_le_left a hd)

/-- A min-fold is bounded by every list element. -/
theorem foldl_min_le_mem (l : List ℚ) (a : ℚ) : ∀ x ∈ l, l.foldl min a ≤ x := by
  induction l generalizing a with
  | nil => intro x hx; cases hx
  | cons hd tl ih =>
    intro x hx
    rcases List.mem_cons.mp hx with rfl | hx
    · exact le_trans (foldl_min_le_init tl (min a x)) (min_le_right a x)
    · exact ih (min a hd) x hx

/-- A min-fold returns its initial value or a list element. -/
theorem foldl_min_mem (l : List ℚ) (a : ℚ) : l.foldl min a = a ∨ l.foldl min a ∈ l := by
  induction l generalizing a with
  | nil => exact Or.inl rfl
  | cons hd tl ih =>
    rcases ih (min a hd) with heq | hmem
    · rcases min_cases a hd with ⟨hm, _⟩ | ⟨hm, _⟩
      · exact Or.inl (by rw [List.foldl_cons, heq, hm])
      · exact Or.inr (by rw [List.foldl_cons, heq, hm]; exact List.mem_cons_self _ _)
    · exact Or.inr (List.mem_cons_of_mem _ hmem)

/-- A max-fold is bounded below by its initial value. -/
theorem le_foldl_max_init (l : List ℚ) (a : ℚ) : a ≤ l.foldl max a := by
  induction l generalizing a with
  | nil => exact le_refl a
  | cons hd tl ih =>
    exact le_trans (le_max_left a hd) (ih (max a hd))

/-- A max-fold dominates every list element. -/
theorem le_foldl_max_mem (l : List ℚ) (a : ℚ) : ∀ x ∈ l, x ≤ l.foldl max a := by
  induction l generalizing a with
  | nil => intro x hx; cases hx
  | cons hd tl ih =>
    intro x hx
    rcases List.mem_cons.mp hx with rfl | hx
    · exact le_trans (le_max_right a x) (le_foldl_max_init tl (max a x))
    · exact ih (max a hd) x hx

/-- A max-fold returns its initial value or a list element. -/
theorem foldl_max_mem (l : List ℚ) (a : ℚ) : l.foldl max a = a ∨ l.foldl max a ∈ l := by
  induction l generalizing a with
  | nil => exact Or.inl rfl
  | cons hd tl ih =>
    rcases ih (max a hd) with heq | hmem
    · rcases max_cases a hd with ⟨hm, _⟩ | ⟨hm, _⟩
      · exact Or.inl (by rw [List.foldl_cons, heq, hm])
      · exact Or.inr (by rw [List.foldl_cons, heq, hm]; exact List.mem_cons_self _ _)
    · exact Or.inr (List.mem_cons_of_mem _ hmem)

/-- Python min is a member of a non-empty list. -/
theorem pymin_mem (l : List ℚ) (h : l ≠ []) : pymin l ∈ l := by
  cases l with
  | nil => exact absurd rfl h
  | cons hd tl =>
    rcases foldl_min_mem tl hd with heq | hmem
    · rw [pymin, heq]; exact List.mem_cons_self _ _
    · exact List.mem_cons_of_mem _ hmem

/-- Python min is a lower bound of the list. -/
theorem pymin_le (l : List ℚ) : ∀ x ∈ l, pymin l ≤ x := by
  cases l with
  | nil => intro x hx; cases hx
  | cons hd tl =>
    intro x hx
    rcases List.mem_cons.mp hx with rfl | hx
    · exact foldl_min_le_init tl x
    · exact foldl_min_le_mem tl hd x hx

/-- Python max is a member of a non-empty list. -/
theorem pymax_mem (l : List ℚ) (h : l ≠ []) : pymax l ∈ l := by
  cases l with
  | nil => exact absurd rfl h
  | cons hd tl =>
    rcases foldl_max_mem tl hd with heq | hmem
    · rw [pymax, heq]; exact List.mem_cons_self _ _
    · exact List.mem_cons_of_mem _ hmem

/-- Python max is an upper bound of the list. -/
theorem le_pymax (l : List ℚ) : ∀ x ∈ l, x ≤ pymax l := by
  cases l with
  | nil => intro x hx; cases hx
  | cons hd tl =>
    intro x hx
    rcases List.mem_cons.mp hx with rfl | hx
    · exact le_foldl_max_init tl x
    · exact le_foldl_max_mem tl hd x hx

/-- The sorted copy of a non-empty list is non-empty. -/
theorem insertionSort_ne_nil (l : List ℚ) (h : l ≠ []) :
    List.insertionSort (· ≤ ·) l ≠ [] := by
  intro hcon
  have := (List.perm_insertionSort (· ≤ ·) l).length_eq
  rw [hcon] at this
  exact h (List.length_eq_zero.mp this.symm)

/-- The first element of a sorted list bounds all its elements. -/
theorem sorted_head_le (s : List ℚ) (hs : List.Sorted (· ≤ ·) s) (x : ℚ)
    (hx : x ∈ s) : s.getD 0 0 ≤ x := by
  obtain ⟨i, rfl⟩ := List.mem_iff_get.mp hx
  have h0 : 0 < s.length := lt_of_le_of_lt (Nat.zero_le _) i.isLt
  rw [List.getD_eq_getElem _ _ h0]
  have hrel := List.Sorted.rel_get_of_le hs
    (a := ⟨0, h0⟩) (b := i) (Fin.le_def.mpr (Nat.zero_le _))
  simpa [List.get_eq_getElem] using hrel

/-- The last element of a sorted list dominates all its elements. -/
theorem sorted_le_last (s : List ℚ) (hs : List.Sorted (· ≤ ·) s) (x : ℚ)
    (hx : x ∈ s) : x ≤ s.getD (s.length - 1) 0 := by
  obtain ⟨i, rfl⟩ := List.mem_iff_get.mp hx
  have hi := i.isLt
  have hlast : s.length - 1 < s.length := by omega
  rw [List.getD_eq_getElem _ _ hlast]
  have hrel := List.Sorted.rel_get_of_le hs
    (a := i) (b := ⟨s.length - 1, hlast⟩) (Fin.le_def.mpr (by simp; omega))
  simpa [List.get_eq_getElem] using hrel

/-- Python min of a non-empty list is the head of its sorted copy. -/
theorem pymin_eq_sorted_head (l : List ℚ) (h : l ≠ []) :
    pymin l = (List.insertionSort (· ≤ ·) l).getD 0 0 := by
  set s := List.insertionSort (· ≤ ·) l with hs
  have hsne : s ≠ [] := insertionSort_ne_nil l h
  have hsorted : List.Sorted (· ≤ ·) s := List.sorted_insertionSort _ l
  have hperm : List.Perm s l := List.perm_insertionSort _ l
  have hpos : 0 < s.length := List.length_pos.mpr hsne
  apply le_antisymm
  · apply pymin_le
    apply hperm.mem_iff.mp
    rw [List.getD_eq_getElem _ _ hpos]
    exact List.getElem_mem hpos
  · exact sorted_head_le s hsorted _ (hperm.mem_iff.mpr (pymin_mem l h))

/-- Python max of a non-empty list is the last entry of its sorted
copy. -/
theorem pymax_eq_sorted_last (l : List ℚ) (h : l ≠ []) :
    pymax l = (List.insertionSort (· ≤ ·) l).getD
      ((List.insertionSort (· ≤ ·) l).length - 1) 0 := by
  set s := List.insertionSort (· ≤ ·) l with hs
  have hsne : s ≠ [] := insertionSort_ne_nil l h
  have hsorted : List.Sorted (· ≤ ·) s := List.sorted_insertionSort _ l
  have hperm : List.Perm s l := List.perm_insertionSort _ l
  have hpos : 0 < s.length := List.length_pos.mpr hsne
  have hlast : s.length - 1 < s.length := by omega
  apply le_antisymm
  · exact sorted_le_last s hsorted _ (hperm.mem_iff.mpr (pymax_mem l h))
  · apply le_pymax
    apply hperm.mem_iff.mp
    rw [List.getD_eq_getElem _ _ hlast]
    exact List.getElem_mem hlast

/-- Python min never exceeds Python max on a non-empty list. -/
theorem pymin_le_pymax (l : List ℚ) (h : l ≠ []) : pymin l ≤ pymax l := by
  cases l with
  | nil => exact absurd rfl h
  | cons hd tl =>
    exact le_trans (pymin_le _ hd (List.mem_cons_self _ _))
      (le_pymax _ hd (List.mem_cons_self _ _))

end MinMaxLemmas

/-- Two overlapping requests: starts at t=0 and t=1, each taking 5
seconds. -/
def twoOverlapMetrics : List Bench.Metric :=
  [⟨0, "svc", "c1", 5, true, none⟩,
   ⟨1, "svc", "c1", 5, true, none⟩]

/-- C3 counterexample: for two outcomes starting at t=0 and t=1 with
duration 5 each, the aggregator reports 2 / (1 - 0) = 2 requests per
second, while the formula of the claim, n / (max(start + duration) -
min(start)) = 2 / 6, gives 1/3: the code ignores the durations and
spans only the start timestamps. -/
theorem throughput_ignores_durations_counterexample :
    (BenchmarkReporter.analyze_service_metrics
      twoOverlapMetrics).throughput.requests_per_second = 2 ∧
    SpecSide.throughputSpec twoOverlapMetrics = 1/3 ∧
    (2 : ℚ) ≠ 1/3 := by
  refine ⟨?_, ?_, by norm_num⟩
  · simp only [BenchmarkReporter.analyze_service_metrics,
      BenchmarkReporter.calculate_throughput, twoOverlapMetrics]
    norm_num [Bench.pymax, Bench.pymin, List.foldl, max_def, min_def]
  · simp only [SpecSide.throughputSpec, twoOverlapMetrics]
    norm_num [Bench.pymax, Bench.pymin, List.foldl, max_def, min_def]

/-- C3 (amended): for every non-empty outcome list the per-service
throughput reported by the aggregator equals n divided by the span of
the START timestamps alone (last minus first in timestamp order,
durations ignored), over all outcomes successful or not, and is 0 when
that span is 0. -/
theorem throughput_span_of_start_timestamps (metrics : List Bench.Metric)
    (h : metrics ≠ []) :
    (BenchmarkReporter.analyze_service_metrics
        metrics).throughput.requests_per_second =
      SpecSide.throughputAmended metrics := by
  have hE : metrics.isEmpty = false := by
    cases metrics
    · exact absurd rfl h
    · rfl
  have hts : metrics.map (·.timestamp) ≠ [] := by
    intro hcon
    exact h (List.map_eq_nil_iff.mp hcon)
  have hanalysis : (BenchmarkReporter.analyze_service_metrics metrics).throughput =
      BenchmarkReporter.calculate_throughput metrics := rfl
  rw [hanalysis]
  unfold BenchmarkReporter.calculate_throughput SpecSide.throughputAmended
  rw [hE]
  simp only [Bool.false_eq_true, if_false]
  set ts := metrics.map (·.timestamp) with htsdef
  set s := List.insertionSort (· ≤ ·) ts with hsdef
  have hlen : s.length = ts.length := (List.perm_insertionSort (· ≤ ·) ts).length_eq
  have hspan : Bench.pymax ts - Bench.pymin ts = s.getD (s.length - 1) 0 - s.getD 0 0 := by
    rw [pymax_eq_sorted_last ts hts, pymin_eq_sorted_head ts hts]
  have hnonneg : 0 ≤ Bench.pymax ts - Bench.pymin ts :=
    sub_nonneg.mpr (pymin_le_pymax ts hts)
  rw [← hspan]
  by_cases hz : Bench.pymax ts - Bench.pymin ts = 0
  · rw [if_neg (by rw [hz]; norm_num), if_pos hz]
  · have hpos : 0 < Bench.pymax ts - Bench.pymin ts :=
      lt_of_le_of_ne hnonneg (Ne.symm hz)
    rw [if_pos hpos, if_neg hz]

/-- C3 witness: the amended theorem applied to the five-sample list;
the span of the start timestamps is 4, so throughput is 5/4. -/
theorem throughput_span_of_start_timestamps_witness :
    (BenchmarkReporter.analyze_service_metrics
        fiveSampleMetrics).throughput.requests_per_second =
      SpecSide.throughputAmended fiveSampleMetrics :=
  throughput_span_of_start_timestamps fiveSampleMetrics (by
    intro hcon
    simp [fiveSampleMetrics] at hcon)

/-- Bucket counts grow with the bound. -/
theorem bucketCount_mono (d : List ℚ) (b b' : ℚ) (h : b ≤ b') :
    PrometheusExporter.bucketCount d b ≤ PrometheusExporter.bucketCount d b' :=
  List.countP_mono_left (fun a _ ha => by
    simp only [decide_eq_true_eq] at ha ⊢
    exact le_trans ha h)

/-- No bucket count exceeds the number of observations. -/
theorem bucketCount_le_length (d : List ℚ) (b : ℚ) :
    PrometheusExporter.bucketCount d b ≤ d.length :=
  List.countP_le_length _

/-- A single failed request taking 0.05 seconds. -/
def oneFailedMetric : List Bench.Metric :=
  [⟨0, "svc", "c1", 1/20, false, none⟩]

/-- C4 counterexample: the bound ladder in the code is [0.001, 0.01,
0.1, 0.5, 1.0, 2.0, 5.0, 10.0], not the claimed ladder containing 2.5;
and the buckets count ALL observations, not only successful ones: for
a single failed request of 0.05s the code counts 1 in the 0.1 bucket
where the claim demands 0. -/
theorem bucket_ladder_counterexample :
    PrometheusExporter.buckets ≠ SpecSide.specLadder ∧
    (5/2 : ℚ) ∉ PrometheusExporter.buckets ∧
    PrometheusExporter.bucketCount
      (PrometheusExporter.serviceDurations oneFailedMetric) (1/10) = 1 ∧
    SpecSide.bucketCountSuccSpec oneFailedMetric (1/10) = 0 ∧
    (1 : ℕ) ≠ 0 := by
  refine ⟨?_, ?_, ?_, ?_, by norm_num⟩
  · intro h
    simp only [PrometheusExporter.buckets, SpecSide.specLadder,
      List.cons.injEq] at h
    norm_num at h
  · intro h
    simp only [PrometheusExporter.buckets, List.mem_cons,
      List.mem_singleton] at h
    norm_num at h
  · norm_num [PrometheusExporter.bucketCount, PrometheusExporter.serviceDurations,
      oneFailedMetric, List.insertionSort, List.orderedInsert, List.countP,
      List.countP.go]
  · norm_num [SpecSide.bucketCountSuccSpec, oneFailedMetric, List.countP,
      List.countP.go, List.filter]

/-- C4 (amended): for any outcome set of one target, the histogram
bucket counts over the hard-coded ladder [0.001, 0.01, 0.1, 0.5, 1.0,
2.0, 5.0, 10.0] followed by the +Inf count are non-decreasing; the +Inf
bucket value equals the emitted _count value (both are the number of
observations); each bucket counts ALL observations - successes and
failures alike - whose duration is at most the bound; and the ladder
itself is strictly ascending. -/
theorem bucket_counts_cumulative (metrics : List Bench.Metric) :
    List.Chain' (· ≤ ·)
      (PrometheusExporter.buckets.map
        (PrometheusExporter.bucketCount
          (PrometheusExporter.serviceDurations metrics)) ++
        [(PrometheusExporter.serviceDurations metrics).length]) ∧
    (∀ b : ℚ, PrometheusExporter.bucketCount
        (PrometheusExporter.serviceDurations metrics) b =
      (metrics.filter (fun m => decide (m.request_duration ≤ b))).length) ∧
    List.Chain' (· < ·) PrometheusExporter.buckets := by
  refine ⟨?_, ?_, ?_⟩
  · set d := PrometheusExporter.serviceDurations metrics with hd
    simp only [PrometheusExporter.buckets, List.map_cons, List.map_nil,
      List.cons_append, List.nil_append, List.chain'_cons, List.chain'_singleton,
      and_true]
    refine ⟨?_, ?_, ?_, ?_, ?_, ?_, ?_, ?_⟩
    · exact bucketCount_mono d _ _ (by norm_num)
    · exact bucketCount_mono d _ _ (by norm_num)
    · exact bucketCount_mono d _ _ (by norm_num)
    · exact bucketCount_mono d _ _ (by norm_num)
    · exact bucketCount_mono d _ _ (by norm_num)
    · exact bucketCount_mono d _ _ (by norm_num)
    · exact bucketCount_mono d _ _ (by norm_num)
    · exact bucketCount_le_length d _
  · intro b
    unfold PrometheusExporter.bucketCount PrometheusExporter.serviceDurations
    rw [(List.perm_insertionSort (· ≤ ·) (metrics.map (·.request_duration))).countP_eq]
    rw [List.countP_map]
    rw [List.countP_eq_length_filter]
    rfl
  · simp only [PrometheusExporter.buckets, List.chain'_cons,
      List.chain'_singleton, and_true]
    norm_num

/-- C4 witness: the amended theorem is hypothesis-free; this instance
applies it to the single failed metric nonetheless, recovering the
all-observations bucket equation at bound 0.1. -/
theorem bucket_counts_cumulative_witness :
    PrometheusExporter.bucketCount
        (PrometheusExporter.serviceDurations oneFailedMetric) (1/10) =
      (oneFailedMetric.filter (fun m => decide (m.request_duration ≤ 1/10))).length :=
  (bucket_counts_cumulative oneFailedMetric).2.1 (1/10)

/-- Membership in the first-seen key list is membership in the source
list, whatever the accumulator already holds. -/
theorem mem_firstSeen_aux (l : List String) (acc : List String) (x : String) :
    (x ∈ l.foldl (fun a s => if a.contains s then a else a ++ [s]) acc) ↔
      (x ∈ acc ∨ x ∈ l) := by
  induction l generalizing acc with
  | nil => simp
  | cons hd tl ih =>
    simp only [List.foldl_cons]
    by_cases hc : acc.contains hd
    · rw [if_pos hc, ih]
      have hhd : hd ∈ acc := by
        simpa using hc
      constructor
      · rintro (h | h)
        · exact Or.inl h
        · exact Or.inr (List.mem_cons_of_mem _ h)
      · rintro (h | h)
        · exact Or.inl h
        · rcases List.mem_cons.mp h with rfl | h
          · exact Or.inl hhd
          · exact Or.inr h
    · rw [if_neg hc, ih]
      simp only [List.mem_append, List.mem_singleton, List.mem_cons]
      tauto

/-- Membership in firstSeen is membership in the original list. -/
theorem mem_firstSeen (l : List String) (x : String) :
    x ∈ BenchmarkReporter.firstSeen l ↔ x ∈ l := by
  unfold BenchmarkReporter.firstSeen
  rw [mem_firstSeen_aux]
  simp

/-- A service block always holds at least its three counter lines. -/
theorem serviceBlock_ne_nil (benchmark_id service : String)
    (metrics : List Bench.Metric) :
    PrometheusExporter.serviceBlock benchmark_id service metrics ≠ [] := by
  unfold PrometheusExporter.serviceBlock
  intro h
  simp at h

/-- C10: every export starts with the five fixed # HELP / # TYPE pairs
(the ten comment lines of headerLines, in their fixed order), the
output string ends with a newline, the export of an empty metric set
consists of exactly the header lines and nothing else, and a service
contributes sample lines exactly when it owns at least one recorded
outcome (each contributed block being non-empty). -/
theorem export_headers_and_trailing_newline (benchmark_id : String)
    (data : List Bench.Metric) :
    (∃ rest, PrometheusExporter.export_lines benchmark_id data =
      PrometheusExporter.headerLines ++ rest) ∧
    (∃ t, PrometheusExporter.export_metrics benchmark_id data = t ++ "\x0a") ∧
    PrometheusExporter.export_lines benchmark_id [] =
      PrometheusExporter.headerLines ∧
    (∀ s, s ∈ BenchmarkReporter.firstSeen (data.map (·.service_name)) ↔
      ∃ m ∈ data, m.service_name = s) ∧
    (∀ s ms, PrometheusExporter.serviceBlock benchmark_id s ms ≠ []) := by
  refine ⟨⟨_, rfl⟩, ⟨_, rfl⟩, ?_, ?_, ?_⟩
  · simp [PrometheusExporter.export_lines, BenchmarkReporter.firstSeen]
  · intro s
    rw [mem_firstSeen]
    simp [List.mem_map]
  · intro s ms
    exact serviceBlock_ne_nil benchmark_id s ms

instance : IsTotal MetricStorage.MetricRow (fun a b => a.timestamp ≤ b.timestamp) :=
  ⟨fun a b => le_total a.timestamp b.timestamp⟩

instance : IsTrans MetricStorage.MetricRow (fun a b => a.timestamp ≤ b.timestamp) :=
  ⟨fun _ _ _ h1 h2 => le_trans h1 h2⟩

/-- Folding batch appends over the database appends all their rows in
order. -/
theorem foldl_store_eq_flatMap (batches : List (String × List MetricStorage.MetricIn))
    (db0 : List MetricStorage.MetricRow) :
    batches.foldl (fun d b => MetricStorage.store_metrics_batch d b.1 b.2) db0 =
      db0 ++ batches.flatMap (fun b => b.2.map (MetricStorage.toRow b.1)) := by
  induction batches generalizing db0 with
  | nil => simp
  | cons hd tl ih =>
    rw [List.foldl_cons, ih]
    simp only [MetricStorage.store_metrics_batch, List.flatMap_cons,
      List.append_assoc]

/-- Selecting rows of one benchmark id from the appended rows keeps
exactly the batches stored under that id. -/
theorem filter_flatMap_rows (batches : List (String × List MetricStorage.MetricIn))
    (benchmark_id : String) :
    (batches.flatMap (fun b => b.2.map (MetricStorage.toRow b.1))).filter
        (fun r => r.benchmark_id == benchmark_id) =
      (batches.filter (fun b => b.1 == benchmark_id)).flatMap
        (fun b => b.2.map (MetricStorage.toRow b.1)) := by
  induction batches with
  | nil => rfl
  | cons hd tl ih =>
    simp only [List.flatMap_cons, List.filter_append, ih, List.filter_cons]
    have hbatch : (hd.2.map (MetricStorage.toRow hd.1)).filter
        (fun r => r.benchmark_id == benchmark_id) =
        if (hd.1 == benchmark_id) = true then hd.2.map (MetricStorage.toRow hd.1)
        else [] := by
      by_cases hb : (hd.1 == benchmark_id) = true
      · rw [if_pos hb]
        apply List.filter_eq_self.mpr
        intro r hr
        obtain ⟨m, _, rfl⟩ := List.mem_map.mp hr
        exact hb
      · rw [if_neg hb]
        apply List.filter_eq_nil_iff.mpr
        intro r hr
        obtain ⟨m, _, rfl⟩ := List.mem_map.mp hr
        exact hb
    rw [hbatch]
    by_cases hb : (hd.1 == benchmark_id) = true
    · rw [if_pos hb, if_pos hb]
      simp [List.flatMap_cons]
    · rw [if_neg hb, if_neg hb]
      simp

/-- Rebuilding a dictionary from its stored row is the identity. -/
theorem rowToMetric_toRow (benchmark_id : String) (m : MetricStorage.MetricIn) :
    MetricStorage.rowToMetric (MetricStorage.toRow benchmark_id m) = m := by
  obtain ⟨ts, sn, ci, rd, sc, st, em, rs⟩ := m
  cases sc <;> simp [MetricStorage.toRow, MetricStorage.rowToMetric]

/-- C6: after any sequence of batch appends starting from an empty
database, querying one benchmark id returns a permutation of exactly
the concatenation of the batches appended under that id (each record
intact, so each still carries its stored service name; no duplicates,
no omissions), its length is the sum of those batch sizes, and the
returned list is ordered by start timestamp. -/
theorem sink_query_returns_union_sorted
    (batches : List (String × List MetricStorage.MetricIn)) (benchmark_id : String) :
    List.Perm
      (MetricStorage.get_metrics
        (batches.foldl (fun d b => MetricStorage.store_metrics_batch d b.1 b.2) [])
        benchmark_id)
      ((batches.filter (fun b => b.1 == benchmark_id)).flatMap (fun b => b.2)) ∧
    (MetricStorage.get_metrics
        (batches.foldl (fun d b => MetricStorage.store_metrics_batch d b.1 b.2) [])
        benchmark_id).length =
      ((batches.filter (fun b => b.1 == benchmark_id)).map
        (fun b => b.2.length)).sum ∧
    List.Pairwise (fun a b => a.timestamp ≤ b.timestamp)
      (MetricStorage.get_metrics
        (batches.foldl (fun d b => MetricStorage.store_metrics_batch d b.1 b.2) [])
        benchmark_id) := by
  have hdb : batches.foldl (fun d b => MetricStorage.store_metrics_batch d b.1 b.2) [] =
      batches.flatMap (fun b => b.2.map (MetricStorage.toRow b.1)) := by
    simpa using foldl_store_eq_flatMap batches []
  have hrowsFlat : ((batches.filter (fun b => b.1 == benchmark_id)).flatMap
      (fun b => b.2.map (MetricStorage.toRow b.1))).map MetricStorage.rowToMetric =
      (batches.filter (fun b => b.1 == benchmark_id)).flatMap (fun b => b.2) := by
    rw [List.map_flatMap]
    apply List.flatMap_congr
    intro b _
    rw [List.map_map]
    have : MetricStorage.rowToMetric ∘ MetricStorage.toRow b.1 = id := by
      funext m
      exact rowToMetric_toRow b.1 m
    rw [this, List.map_id]
  have hget : MetricStorage.get_metrics
      (batches.foldl (fun d b => MetricStorage.store_metrics_batch d b.1 b.2) [])
      benchmark_id =
      (((batches.filter (fun b => b.1 == benchmark_id)).flatMap
        (fun b => b.2.map (MetricStorage.toRow b.1))).insertionSort
          (fun a b => a.timestamp ≤ b.timestamp)).map MetricStorage.rowToMetric := by
    unfold MetricStorage.get_metrics
    rw [hdb, filter_flatMap_rows]
  have hperm : List.Perm
      (MetricStorage.get_metrics
        (batches.foldl (fun d b => MetricStorage.store_metrics_batch d b.1 b.2) [])
        benchmark_id)
      ((batches.filter (fun b => b.1 == benchmark_id)).flatMap (fun b => b.2)) := by
    rw [hget, ← hrowsFlat]
    exact (List.perm_insertionSort _ _).map MetricStorage.rowToMetric
  refine ⟨hperm, ?_, ?_⟩
  · rw [hperm.length_eq, List.length_flatMap]
    rfl
  · rw [hget]
    rw [List.pairwise_map]
    have hsorted := List.sorted_insertionSort
      (fun (a b : MetricStorage.MetricRow) => a.timestamp ≤ b.timestamp)
      ((batches.filter (fun b => b.1 == benchmark_id)).flatMap
        (fun b => b.2.map (MetricStorage.toRow b.1)))
    exact hsorted

/-- Entries of a sorted list grow with the index. -/
theorem sorted_getD_mono (s : List ℚ) (hs : List.Sorted (· ≤ ·) s) (i j : ℕ)
    (hij : i ≤ j) (hj : j < s.length) : s.getD i 0 ≤ s.getD j 0 := by
  have hi : i < s.length := lt_of_le_of_lt hij hj
  rw [List.getD_eq_getElem _ _ hi, List.getD_eq_getElem _ _ hj]
  have hrel := List.Sorted.rel_get_of_le hs
    (a := ⟨i, hi⟩) (b := ⟨j, hj⟩) (Fin.le_def.mpr hij)
  simpa [List.get_eq_getElem] using hrel

/-- A convex combination of two adjacent sorted entries lies between
them. -/
theorem interp_combo_bounds (s : List ℚ) (hs : List.Sorted (· ≤ ·) s) (l : ℕ)
    (hl : l + 1 < s.length) (w : ℚ) (hw0 : 0 ≤ w) (hw1 : w ≤ 1) :
    s.getD l 0 ≤ s.getD l 0 * (1 - w) + s.getD (l + 1) 0 * w ∧
    s.getD l 0 * (1 - w) + s.getD (l + 1) 0 * w ≤ s.getD (l + 1) 0 := by
  have hadj : s.getD l 0 ≤ s.getD (l + 1) 0 :=
    sorted_getD_mono s hs l (l + 1) (Nat.le_succ l) hl
  constructor
  · nlinarith
  · nlinarith

/-- The interpolation body stays at or below the last entry. -/
theorem interpAt_le_last (s : List ℚ) (hs : List.Sorted (· ≤ ·) s) (x : ℚ)
    (hx0 : 0 ≤ x) (hxub : x ≤ (s.length : ℚ) - 1) :
    BenchmarkReporter.interpAt s x ≤ s.getD (s.length - 1) 0 := by
  unfold BenchmarkReporter.interpAt
  by_cases hbr : s.length ≤ ⌊x⌋₊ + 1
  · rw [if_pos hbr]
  · rw [if_neg hbr]
    push_neg at hbr
    have hw0 : 0 ≤ x - (⌊x⌋₊ : ℚ) := sub_nonneg.mpr (Nat.floor_le hx0)
    have hw1 : x - (⌊x⌋₊ : ℚ) ≤ 1 := by
      have := Nat.lt_floor_add_one x
      linarith
    have hcombo := interp_combo_bounds s hs ⌊x⌋₊ hbr _ hw0 hw1
    refine le_trans hcombo.2 ?_
    exact sorted_getD_mono s hs (⌊x⌋₊ + 1) (s.length - 1) (by omega) (by omega)

/-- The interpolation body stays at or above the first entry. -/
theorem head_le_interpAt (s : List ℚ) (hs : List.Sorted (· ≤ ·) s) (x : ℚ)
    (hx0 : 0 ≤ x) (hxub : x ≤ (s.length : ℚ) - 1) :
    s.getD 0 0 ≤ BenchmarkReporter.interpAt s x := by
  have hlen : 1 ≤ s.length := by
    by_contra hcon
    have h00 : s.length = 0 := by omega
    rw [h00] at hxub
    norm_num at hxub
    linarith
  unfold BenchmarkReporter.interpAt
  by_cases hbr : s.length ≤ ⌊x⌋₊ + 1
  · rw [if_pos hbr]
    exact sorted_getD_mono s hs 0 (s.length - 1) (Nat.zero_le _) (by omega)
  · rw [if_neg hbr]
    push_neg at hbr
    have hw0 : 0 ≤ x - (⌊x⌋₊ : ℚ) := sub_nonneg.mpr (Nat.floor_le hx0)
    have hw1 : x - (⌊x⌋₊ : ℚ) ≤ 1 := by
      have := Nat.lt_floor_add_one x
      linarith
    have hcombo := interp_combo_bounds s hs ⌊x⌋₊ hbr _ hw0 hw1
    exact le_trans (sorted_getD_mono s hs 0 ⌊x⌋₊ (Nat.zero_le _) (by omega)) hcombo.1

/-- The interpolation body is monotone in the index over a sorted
list. -/
theorem interpAt_mono (s : List ℚ) (hs : List.Sorted (· ≤ ·) s) (x y : ℚ)
    (hx0 : 0 ≤ x) (hxy : x ≤ y) (hyub : y ≤ (s.length : ℚ) - 1) :
    BenchmarkReporter.interpAt s x ≤ BenchmarkReporter.interpAt s y := by
  have hy0 : 0 ≤ y := le_trans hx0 hxy
  have hxub : x ≤ (s.length : ℚ) - 1 := le_trans hxy hyub
  by_cases hbry : s.length ≤ ⌊y⌋₊ + 1
  · have hlast : BenchmarkReporter.interpAt s y = s.getD (s.length - 1) 0 := by
      unfold BenchmarkReporter.interpAt
      rw [if_pos hbry]
    rw [hlast]
    exact interpAt_le_last s hs x hx0 hxub
  · have hbrx : ¬ s.length ≤ ⌊x⌋₊ + 1 := by
      intro hcon
      exact hbry (le_trans hcon (by
        have := Nat.floor_mono hxy
        omega))
    have hwx0 : 0 ≤ x - (⌊x⌋₊ : ℚ) := sub_nonneg.mpr (Nat.floor_le hx0)
    have hwx1 : x - (⌊x⌋₊ : ℚ) ≤ 1 := by
      have := Nat.lt_floor_add_one x
      linarith
    have hwy0 : 0 ≤ y - (⌊y⌋₊ : ℚ) := sub_nonneg.mpr (Nat.floor_le hy0)
    have hwy1 : y - (⌊y⌋₊ : ℚ) ≤ 1 := by
      have := Nat.lt_floor_add_one y
      linarith
    push_neg at hbry hbrx
    unfold BenchmarkReporter.interpAt
    rw [if_neg (by omega), if_neg (by omega)]
    dsimp only
    rcases Nat.lt_or_ge ⌊x⌋₊ ⌊y⌋₊ with hfl | hfl
    · have h1 : s.getD ⌊x⌋₊ 0 * (1 - (x - (⌊x⌋₊ : ℚ))) +
          s.getD (⌊x⌋₊ + 1) 0 * (x - (⌊x⌋₊ : ℚ)) ≤ s.getD (⌊x⌋₊ + 1) 0 :=
        (interp_combo_bounds s hs ⌊x⌋₊ hbrx _ hwx0 hwx1).2
      have h2 : s.getD ⌊y⌋₊ 0 ≤ s.getD ⌊y⌋₊ 0 * (1 - (y - (⌊y⌋₊ : ℚ))) +
          s.getD (⌊y⌋₊ + 1) 0 * (y - (⌊y⌋₊ : ℚ)) :=
        (interp_combo_bounds s hs ⌊y⌋₊ hbry _ hwy0 hwy1).1
      have h3 : s.getD (⌊x⌋₊ + 1) 0 ≤ s.getD ⌊y⌋₊ 0 :=
        sorted_getD_mono s hs (⌊x⌋₊ + 1) ⌊y⌋₊ (by omega) (by omega)
      linarith
    · have hfleq : ⌊x⌋₊ = ⌊y⌋₊ := le_antisymm (Nat.floor_mono hxy) hfl
      rw [hfleq]
      have hadj : s.getD ⌊y⌋₊ 0 ≤ s.getD (⌊y⌋₊ + 1) 0 :=
        sorted_getD_mono s hs ⌊y⌋₊ (⌊y⌋₊ + 1) (Nat.le_succ _) hbry
      have hxy2 : x - (⌊y⌋₊ : ℚ) ≤ y - (⌊y⌋₊ : ℚ) := by linarith
      nlinarith

/-- The interpolation index is within bounds and monotone in the
percentile. -/
theorem index_le_len_sub_one (n : ℕ) (hn : 1 ≤ n) (p : ℕ) (hp : p ≤ 100) :
    0 ≤ ((n : ℚ) - 1) * p / 100 ∧ ((n : ℚ) - 1) * p / 100 ≤ (n : ℚ) - 1 := by
  have h1 : (1 : ℚ) ≤ (n : ℚ) := by exact_mod_cast hn
  have hp100 : (p : ℚ) ≤ 100 := by exact_mod_cast hp
  constructor
  · apply div_nonneg _ (by norm_num)
    apply mul_nonneg _ (Nat.cast_nonneg p)
    linarith
  · rw [div_le_iff₀ (by norm_num : (0:ℚ) < 100)]
    nlinarith

/-- The percentile function is monotone in the percentile over a sorted
list. -/
theorem percentile_mono_p (sd : List ℚ) (hs : List.Sorted (· ≤ ·) sd)
    (hne : sd ≠ []) (p q : ℕ) (hpq : p ≤ q) (hq : q ≤ 100) :
    BenchmarkReporter.percentile sd p ≤ BenchmarkReporter.percentile sd q := by
  have hlen : 1 ≤ sd.length := List.length_pos.mpr hne
  have hE : sd.isEmpty = false := by
    cases sd
    · exact absurd rfl hne
    · rfl
  unfold BenchmarkReporter.percentile
  simp only [hE, Bool.false_eq_true, if_false]
  have hbp := index_le_len_sub_one sd.length hlen p (le_trans hpq hq)
  have hbq := index_le_len_sub_one sd.length hlen q hq
  apply interpAt_mono sd hs _ _ hbp.1 ?_ hbq.2
  have h1 : (1 : ℚ) ≤ (sd.length : ℚ) := by exact_mod_cast hlen
  have hpq2 : (p : ℚ) ≤ (q : ℚ) := by exact_mod_cast hpq
  exact div_le_div_of_nonneg_right
    (mul_le_mul_of_nonneg_left hpq2 (by linarith)) (by norm_num)

/-- Any percentile of a sorted non-empty list lies between its first
and last entries. -/
theorem percentile_between (sd : List ℚ) (hs : List.Sorted (· ≤ ·) sd)
    (hne : sd ≠ []) (p : ℕ) (hp : p ≤ 100) :
    sd.getD 0 0 ≤ BenchmarkReporter.percentile sd p ∧
    BenchmarkReporter.percentile sd p ≤ sd.getD (sd.length - 1) 0 := by
  have hlen : 1 ≤ sd.length := List.length_pos.mpr hne
  have hE : sd.isEmpty = false := by
    cases sd
    · exact absurd rfl hne
    · rfl
  unfold BenchmarkReporter.percentile
  simp only [hE, Bool.false_eq_true, if_false]
  have hb := index_le_len_sub_one sd.length hlen p hp
  exact ⟨head_le_interpAt sd hs _ hb.1 hb.2, interpAt_le_last sd hs _ hb.1 hb.2⟩

/-- Unfolding equation: the percentile block of a service analysis. -/
theorem analyze_percentiles_eq (metrics : List Bench.Metric) :
    (BenchmarkReporter.analyze_service_metrics metrics).percentiles =
      (if ((metrics.filter (·.success)).map (·.request_duration)).isEmpty then none
       else some
        ⟨BenchmarkReporter.percentile (List.insertionSort (· ≤ ·)
            ((metrics.filter (·.success)).map (·.request_duration))) 50,
         BenchmarkReporter.percentile (List.insertionSort (· ≤ ·)
            ((metrics.filter (·.success)).map (·.request_duration))) 90,
         BenchmarkReporter.percentile (List.insertionSort (· ≤ ·)
            ((metrics.filter (·.success)).map (·.request_duration))) 95,
         BenchmarkReporter.percentile (List.insertionSort (· ≤ ·)
            ((metrics.filter (·.success)).map (·.request_duration))) 99⟩) := rfl

/-- Unfolding equation: the minimum duration of a service analysis. -/
theorem analyze_min_eq (metrics : List Bench.Metric) :
    (BenchmarkReporter.analyze_service_metrics metrics).timing.min_duration =
      (if ((metrics.filter (·.success)).map (·.request_duration)).isEmpty then 0
       else Bench.pymin ((metrics.filter (·.success)).map (·.request_duration))) := rfl

/-- Unfolding equation: the maximum duration of a service analysis. -/
theorem analyze_max_eq (metrics : List Bench.Metric) :
    (BenchmarkReporter.analyze_service_metrics metrics).timing.max_duration =
      (if ((metrics.filter (·.success)).map (·.request_duration)).isEmpty then 0
       else Bench.pymax ((metrics.filter (·.success)).map (·.request_duration))) := rfl

/-- C8: whenever at least one successful latency exists, the percentile
dictionary the aggregator reports satisfies p50 at most p90 at most p95
at most p99, and the reported minimum and maximum successful latencies
bracket p50. -/
theorem percentile_ladder_monotone (metrics : List Bench.Metric)
    (h : (metrics.filter (·.success)).map (·.request_duration) ≠ []) :
    ∃ ps, (BenchmarkReporter.analyze_service_metrics metrics).percentiles = some ps ∧
      ps.p50 ≤ ps.p90 ∧ ps.p90 ≤ ps.p95 ∧ ps.p95 ≤ ps.p99 ∧
      (BenchmarkReporter.analyze_service_metrics metrics).timing.min_duration ≤
        ps.p50 ∧
      ps.p50 ≤
        (BenchmarkReporter.analyze_service_metrics metrics).timing.max_duration := by
  have hE : ((metrics.filter (·.success)).map (·.request_duration)).isEmpty = false := by
    cases hd : (metrics.filter (·.success)).map (·.request_duration) with
    | nil => exact absurd hd h
    | cons a t => rfl
  have hs : List.Sorted (· ≤ ·) (List.insertionSort (· ≤ ·)
      ((metrics.filter (·.success)).map (·.request_duration))) :=
    List.sorted_insertionSort _ _
  have hsdne : List.insertionSort (· ≤ ·)
      ((metrics.filter (·.success)).map (·.request_duration)) ≠ [] :=
    insertionSort_ne_nil _ h
  refine ⟨_, by rw [analyze_percentiles_eq, hE]; rfl, ?_, ?_, ?_, ?_, ?_⟩
  · exact percentile_mono_p _ hs hsdne 50 90 (by norm_num) (by norm_num)
  · exact percentile_mono_p _ hs hsdne 90 95 (by norm_num) (by norm_num)
  · exact percentile_mono_p _ hs hsdne 95 99 (by norm_num) (by norm_num)
  · rw [analyze_min_eq, hE]
    simp only [Bool.false_eq_true, if_false]
    rw [pymin_eq_sorted_head _ h]
    exact (percentile_between _ hs hsdne 50 (by norm_num)).1
  · rw [analyze_max_eq, hE]
    simp only [Bool.false_eq_true, if_false]
    rw [pymax_eq_sorted_last _ h]
    exact (percentile_between _ hs hsdne 50 (by norm_num)).2

/-- C8 witness: the theorem applied to the five-sample metric list. -/
theorem percentile_ladder_monotone_witness :
    ∃ ps, (BenchmarkReporter.analyze_service_metrics
        fiveSampleMetrics).percentiles = some ps ∧
      ps.p50 ≤ ps.p90 ∧ ps.p90 ≤ ps.p95 ∧ ps.p95 ≤ ps.p99 ∧
      (BenchmarkReporter.analyze_service_metrics
          fiveSampleMetrics).timing.min_duration ≤ ps.p50 ∧
      ps.p50 ≤ (BenchmarkReporter.analyze_service_metrics
          fiveSampleMetrics).timing.max_duration :=
  percentile_ladder_monotone fiveSampleMetrics (by
    intro hcon
    simp [fiveSampleMetrics, List.filter] at hcon)
